import Mathlib

/-!
# gonft: rule.go

A shallow embedding of `rule.go` of the `nft` package: the dump of the rules of a
family (`getRule`, `GetRules`, `GetRules6`) and the construction of the canned
protocol-match rule (`Add`, `addSetup`, `addPayload`, `addCmp`).

The C library (libmnl, libnftnl) and the kernel are not part of the package. They
are embedded as a `World` (the answers of the netlink endpoint and of the callback
run) and an `AllocWorld` (the answers of the libnftnl allocators). Every call that
crosses into C is recorded in a ghost trace of `Op`s, in program order.
-/

namespace Gonft

set_option linter.unusedVariables false

/-! ## Data model -/

/-- The anonymous struct of the `DataReg` field of `Expr`. -/
structure DataReg where
  Type_ : String
  Len : Int
  Data0 : String
  Verdict : String
  deriving DecidableEq, Repr

/-- The Go struct `Expr`. -/
structure Expr where
  Type_ : String
  Dreg : Int
  Offset : Int
  Len : Int
  Base : String
  Sreg : Int
  Op : String
  DataReg : DataReg
  deriving DecidableEq, Repr

/-- The attributes of a libnftnl expression that `rule.go` sets. -/
inductive ExprAttr where
  | NFT_EXPR_PAYLOAD_BASE
  | NFT_EXPR_PAYLOAD_DREG
  | NFT_EXPR_PAYLOAD_OFFSET
  | NFT_EXPR_PAYLOAD_LEN
  | NFT_EXPR_CMP_SREG
  | NFT_EXPR_CMP_OP
  | NFT_EXPR_CMP_DATA
  deriving DecidableEq, Repr

/-- The attributes of a libnftnl rule that `rule.go` sets. -/
inductive RuleAttr where
  | NFT_RULE_ATTR_TABLE
  | NFT_RULE_ATTR_CHAIN
  | NFT_RULE_ATTR_FAMILY
  | NFT_RULE_ATTR_POSITION
  deriving DecidableEq, Repr

/-- A wire-form expression (`struct nft_rule_expr`): the name it was allocated
with, the 32-bit attributes set on it and the raw attributes set on it (the Go
value whose address is passed, and the byte length passed), each in the order of
the calls. -/
structure WireExpr where
  name : String
  u32 : List (ExprAttr × Nat)
  raw : List (ExprAttr × Int × Nat)
  deriving DecidableEq, Repr

/-- A wire-form rule (`struct nft_rule`): the attributes set on it and the
expressions appended to it, each in the order of the calls. -/
structure WireRule where
  strs : List (RuleAttr × String)
  u32 : List (RuleAttr × Nat)
  u64 : List (RuleAttr × Nat)
  exprs : List WireExpr
  deriving DecidableEq, Repr

/-- The Go struct `Rule`; the field `rule` is the pointer to the C rule, `none`
for the nil pointer. -/
structure Rule where
  Family : String
  Table : String
  Chain : String
  Handle : Nat
  Position : Nat
  CompatFlags : Nat
  CompatProto : Nat
  Expr : List Expr
  rule : Option WireRule
  deriving DecidableEq, Repr

/-- The memory a `C.free` call releases. -/
inductive Mem where
  | rule
  | cstring (s : String)
  deriving DecidableEq, Repr

/-- One call into C, or one operation on the rule stream, as recorded in the
ghost trace. Calls that return a status carry it. -/
inductive Op where
  | buildHdr (ok : Bool)
  | socketOpen (ok : Bool)
  | socketBind (res : Int)
  | getPortid
  | sendto (res : Int)
  | recvfrom (res : Int)
  | cbRun (res : Int)
  | chanClose
  | wgWait
  | socketClose
  | ruleAlloc (ok : Bool)
  | cstring (s : String)
  | ruleAttrSet (a : RuleAttr) (s : String)
  | ruleAttrSetU32 (a : RuleAttr) (v : Nat)
  | ruleAttrSetU64 (a : RuleAttr) (v : Nat)
  | exprAlloc (name : String) (ok : Bool)
  | exprSetU32 (a : ExprAttr) (v : Nat)
  | exprSet (a : ExprAttr) (data : Int) (len : Nat)
  | addExpr (name : String)
  | free (m : Mem)
  deriving DecidableEq, Repr

/-- The errors `rule.go` creates with `fmt.Errorf`, one constructor per call site. -/
inductive Err where
  | unrecognisedFamily (family : String)
  | buildHdr
  | socketOpen
  | socketBind
  | socketSend
  | cbRun (cerr : Option String)
  | unrecognisedProtocol (protoStr : String)
  | exprAlloc (cerr : Option String)
  deriving DecidableEq, Repr

/-- What `%s` prints for a Go `error` value: its message, or the marker of the
nil interface. -/
def fmtError (cerr : Option String) : String :=
  match cerr with
  | some s => s
  | none => "%!s(<nil>)"

/-- The message of each error, as `fmt.Errorf` formats it. -/
def Err.Error : Err → String
  | .unrecognisedFamily family => "unrecognised family " ++ family
  | .buildHdr => "nft_rule_nlmsg_build_hdr"
  | .socketOpen => "mnl_socket_open"
  | .socketBind => "mnl_socket_bind"
  | .socketSend => "mnl_socket_send"
  | .cbRun cerr => "mnl_cb_run: err " ++ fmtError cerr
  | .unrecognisedProtocol protoStr => "unrecognised protocol " ++ protoStr
  | .exprAlloc cerr => "rule expr alloc failure: " ++ fmtError cerr

/-! ## Constants of the C headers -/

/-- The message type `NFT_MSG_GETRULE` of `linux/netfilter/nf_tables.h`. -/
def NFT_MSG_GETRULE : Nat := 7

/-- The flag set `NLM_F_DUMP` of `linux/netlink.h`. -/
def NLM_F_DUMP : Nat := 0x300

/-- The netlink bus `NETLINK_NETFILTER`. -/
def NETLINK_NETFILTER : Nat := 12

/-- The port id `MNL_SOCKET_AUTOPID` of libmnl. -/
def MNL_SOCKET_AUTOPID : Nat := 0

/-- The payload base `NFT_PAYLOAD_NETWORK_HEADER`. -/
def NFT_PAYLOAD_NETWORK_HEADER : Int := 1

/-- The register `NFT_REG_1`. -/
def NFT_REG_1 : Int := 1

/-- The comparison operator `NFT_CMP_EQ`. -/
def NFT_CMP_EQ : Int := 0

/-- The byte offset of the field `protocol` in `struct iphdr`. -/
def iphdr_protocol_offset : Nat := 9

/-- The value of `time.Time{}.Unix()`: the zero time in seconds since the epoch. -/
def seq : Int := -62135596800

/-- The conversion of a Go integer to `C.uint16_t`. -/
def toU16 (x : Int) : Nat := (x % 65536).toNat

/-- The conversion of a Go integer to `C.uint32_t` (and to `C.uint`). -/
def toU32 (x : Int) : Nat := (x % 4294967296).toNat

/-- The conversion of a Go integer to `C.uint64_t` (and to `C.size_t`). -/
def toU64 (x : Int) : Nat := (x % 18446744073709551616).toNat

/-! ## The dump: `getRule` -/

/-- What one `mnl_cb_run` call does: the value it returns, the error cgo derives
from `errno`, and the rules the callback sent on the rule channel during the
call, in the order sent. -/
structure CbResult where
  n : Int
  cerr : Option String
  emitted : List Rule
  deriving DecidableEq, Repr

/-- The answers of libmnl, libnftnl and the kernel to one call of `getRule`.
`recvfrom i len` is the result of the `i`-th receive into a buffer of `len`
bytes, `cbRun i numbytes seq portid` the result of the callback run on the
buffer that receive filled. -/
structure World where
  pagesize : Nat
  pagesize_pos : 0 < pagesize
  buildHdr : Nat → Nat → Nat → Nat → Option Nat
  socketOpen : Nat → Bool
  socketBind : Nat → Nat → Int
  portid : Nat
  sendto : Nat → Int
  recvfrom : Nat → Nat → Int × Option String
  cbRun : Nat → Nat → Nat → Nat → CbResult

/-- The state of the receive loop of `getRule`: the variables `sn` and `cerr`,
the slice `rules` the consumer goroutine appends to, and the ghost trace. -/
structure LoopState where
  sn : Int
  cerr : Option String
  rules : List Rule
  trace : List Op
  deriving DecidableEq, Repr

/-- The loop `for sn > 0 { ... }` of `getRule`, entered for the `i`-th received
buffer. Each unit of fuel pays for one iteration; `none` means the loop is still
running when the fuel is spent. The rules the callback sends on the unbuffered
channel are appended by the consumer in the order sent. -/
def recvLoop (w : World) (bufsize : Nat) :
    Nat → Nat → Int → Option String → List Rule → List Op → Option LoopState
  | 0, _, sn, cerr, rules, tr =>
    if sn > 0 then none else some ⟨sn, cerr, rules, tr⟩
  | fuel + 1, i, sn, cerr, rules, tr =>
    if sn > 0 then
      let r := w.cbRun i (toU64 sn) (toU32 seq) w.portid
      let rules := rules ++ r.emitted
      let tr := tr ++ [Op.cbRun r.n]
      if r.n ≤ 0 then
        some ⟨r.n, r.cerr, rules, tr⟩
      else
        let rv := w.recvfrom (i + 1) bufsize
        recvLoop w bufsize fuel (i + 1) rv.1 rv.2 rules (tr ++ [Op.recvfrom rv.1])
    else some ⟨sn, cerr, rules, tr⟩

/-- The values `getRule` returns, with the ghost trace of the call. -/
structure Result where
  rules : List Rule
  err : Option Err
  trace : List Op
  deriving DecidableEq, Repr

/-- The size of the receive buffer: the page size, capped at 8192. -/
def bufsize (w : World) : Nat :=
  if w.pagesize < 8192 then w.pagesize else 8192

/-- The function `getRule(name, family)`. `familyMap` is the family table of
the package. `none` means the receive loop is still running when the fuel is spent. -/
def getRule (familyMap : String → Option Int) (w : World) (name family : String)
    (fuel : Nat) : Option Result :=
  match familyMap family with
  | none => some ⟨[], some (.unrecognisedFamily family), []⟩
  | some f =>
    match w.buildHdr NFT_MSG_GETRULE (toU16 f) NLM_F_DUMP (toU32 seq) with
    | none => some ⟨[], some .buildHdr, [.buildHdr false]⟩
    | some nlmsg_len =>
      if w.socketOpen NETLINK_NETFILTER = false then
        some ⟨[], some .socketOpen, [.buildHdr true, .socketOpen false]⟩
      else if w.socketBind 0 MNL_SOCKET_AUTOPID < 0 then
        some ⟨[], some .socketBind,
          [.buildHdr true, .socketOpen true, .socketBind (w.socketBind 0 MNL_SOCKET_AUTOPID)]⟩
      else if w.sendto nlmsg_len < 0 then
        some ⟨[], some .socketSend,
          [.buildHdr true, .socketOpen true, .socketBind (w.socketBind 0 MNL_SOCKET_AUTOPID),
           .getPortid, .sendto (w.sendto nlmsg_len)]⟩
      else
        let sn := (w.recvfrom 0 (bufsize w)).1
        match recvLoop w (bufsize w) fuel 0 sn none []
            [.buildHdr true, .socketOpen true, .socketBind (w.socketBind 0 MNL_SOCKET_AUTOPID),
             .getPortid, .sendto (w.sendto nlmsg_len), .recvfrom sn] with
        | none => none
        | some st =>
          if st.sn = -1 then
            some ⟨st.rules, some (.cbRun st.cerr), st.trace ++ [.chanClose, .wgWait]⟩
          else
            some ⟨st.rules, none, st.trace ++ [.chanClose, .wgWait, .socketClose]⟩

/-- The function `GetRules(chain)`. -/
def GetRules (familyMap : String → Option Int) (w : World) (chain : String)
    (fuel : Nat) : Option Result :=
  getRule familyMap w chain "ip" fuel

/-- The function `GetRules6(chain)`. -/
def GetRules6 (familyMap : String → Option Int) (w : World) (chain : String)
    (fuel : Nat) : Option Result :=
  getRule familyMap w chain "ip6" fuel

/-! ## The canned rule: `Add` -/

/-- The answers of the libnftnl allocators to one call of `Add`: whether
`nft_rule_alloc` returns a rule, whether `nft_rule_expr_alloc` returns an
expression of the given name, and the error cgo derives from `errno` after each. -/
structure AllocWorld where
  ruleAlloc : Bool
  ruleAllocErr : Option String
  exprAlloc : String → Bool
  exprAllocErr : String → Option String

/-- How a call of `addSetup`, `addPayload` or `addCmp` ends: it returns (the
error, the receiver as the call leaves it, the ghost trace), or the process
faults in C because the nil rule pointer is dereferenced by libnftnl. -/
inductive Outcome where
  | returned (err : Option Err) (r : Rule) (trace : List Op)
  | fault (trace : List Op)
  deriving DecidableEq, Repr

/-- The error a call returned, if it returned. -/
def Outcome.err : Outcome → Option (Option Err)
  | .returned err _ _ => some err
  | .fault _ => none

/-- The ghost trace of a call. -/
def Outcome.trace : Outcome → List Op
  | .returned _ _ trace => trace
  | .fault trace => trace

/-- The expressions of the wire-form rule the receiver points to when the call
returns; empty when there is none. -/
def Outcome.exprs : Outcome → List WireExpr
  | .returned _ r _ =>
    match r.rule with
    | some wr => wr.exprs
    | none => []
  | .fault _ => []

/-- The method `(r *Rule) addPayload(base, dreg, offset, length)`. -/
def addPayload (a : AllocWorld) (r : Rule) (base dreg : Int) (offset length : Nat) :
    Outcome :=
  if a.exprAlloc "payload" = false then
    .returned (some (.exprAlloc (a.exprAllocErr "payload"))) r
      [.cstring "payload", .exprAlloc "payload" false, .free (.cstring "payload")]
  else
    let e : WireExpr :=
      ⟨"payload",
       [(.NFT_EXPR_PAYLOAD_BASE, toU32 base), (.NFT_EXPR_PAYLOAD_DREG, toU32 dreg),
        (.NFT_EXPR_PAYLOAD_OFFSET, toU32 offset), (.NFT_EXPR_PAYLOAD_LEN, toU32 length)],
       []⟩
    let calls : List Op :=
      [.cstring "payload", .exprAlloc "payload" true,
       .exprSetU32 .NFT_EXPR_PAYLOAD_BASE (toU32 base),
       .exprSetU32 .NFT_EXPR_PAYLOAD_DREG (toU32 dreg),
       .exprSetU32 .NFT_EXPR_PAYLOAD_OFFSET (toU32 offset),
       .exprSetU32 .NFT_EXPR_PAYLOAD_LEN (toU32 length),
       .addExpr "payload"]
    match r.rule with
    | none => .fault calls
    | some wr =>
      .returned none { r with rule := some { wr with exprs := wr.exprs ++ [e] } }
        (calls ++ [.free (.cstring "payload")])

/-- The method `(r *Rule) addCmp(sreg, op, data, length)`. -/
def addCmp (a : AllocWorld) (r : Rule) (sreg op : Int) (data : Int) (length : Nat) :
    Outcome :=
  if a.exprAlloc "cmp" = false then
    .returned (some (.exprAlloc (a.exprAllocErr "cmp"))) r
      [.cstring "cmp", .exprAlloc "cmp" false, .free (.cstring "cmp")]
  else
    let e : WireExpr :=
      ⟨"cmp",
       [(.NFT_EXPR_CMP_SREG, toU32 sreg), (.NFT_EXPR_CMP_OP, toU32 op)],
       [(.NFT_EXPR_CMP_DATA, data, toU32 length)]⟩
    let calls : List Op :=
      [.cstring "cmp", .exprAlloc "cmp" true,
       .exprSetU32 .NFT_EXPR_CMP_SREG (toU32 sreg),
       .exprSetU32 .NFT_EXPR_CMP_OP (toU32 op),
       .exprSet .NFT_EXPR_CMP_DATA data (toU32 length),
       .addExpr "cmp"]
    match r.rule with
    | none => .fault calls
    | some wr =>
      .returned none { r with rule := some { wr with exprs := wr.exprs ++ [e] } }
        (calls ++ [.free (.cstring "cmp")])

/-- The method `(r *Rule) addSetup(protoStr, port)`. `familyMap` and `protoMap`
are the family and protocol tables of the package. The test `r == nil` after the
allocation is on the receiver, which is not nil, so its branch is never taken
and a nil `r.rule` reaches `nft_rule_attr_set`. The deferred `C.free` calls run
at the return, last registered first. -/
def addSetup (familyMap protoMap : String → Option Int) (a : AllocWorld) (r : Rule)
    (protoStr : String) (port : Int) : Outcome :=
  match protoMap protoStr with
  | none => .returned (some (.unrecognisedProtocol protoStr)) r []
  | some proto =>
    if a.ruleAlloc = false then
      .fault [.ruleAlloc false, .cstring r.Table,
        .ruleAttrSet .NFT_RULE_ATTR_TABLE r.Table]
    else
      let wr1 : WireRule :=
        ⟨[(.NFT_RULE_ATTR_TABLE, r.Table), (.NFT_RULE_ATTR_CHAIN, r.Chain)], [], [], []⟩
      let tr1 : List Op :=
        [.ruleAlloc true, .cstring r.Table, .ruleAttrSet .NFT_RULE_ATTR_TABLE r.Table,
         .cstring r.Chain, .ruleAttrSet .NFT_RULE_ATTR_CHAIN r.Chain]
      let frees : List Op :=
        [.free (.cstring r.Chain), .free (.cstring r.Table), .free .rule]
      match familyMap r.Family with
      | none =>
        .returned (some (.unrecognisedFamily r.Family)) { r with rule := some wr1 }
          (tr1 ++ frees)
      | some f =>
        let wr2 : WireRule := { wr1 with u32 := [(.NFT_RULE_ATTR_FAMILY, toU32 f)] }
        let tr2 : List Op := tr1 ++ [.ruleAttrSetU32 .NFT_RULE_ATTR_FAMILY (toU32 f)]
        let wr3 : WireRule :=
          if r.Handle > 0 then { wr2 with u64 := [(.NFT_RULE_ATTR_POSITION, r.Handle)] }
          else wr2
        let tr3 : List Op :=
          if r.Handle > 0 then tr2 ++ [.ruleAttrSetU64 .NFT_RULE_ATTR_POSITION r.Handle]
          else tr2
        match addPayload a { r with rule := some wr3 } NFT_PAYLOAD_NETWORK_HEADER NFT_REG_1
            iphdr_protocol_offset 8 with
        | .fault t => .fault (tr3 ++ t)
        | .returned (some e) r1 t => .returned (some e) r1 (tr3 ++ t ++ frees)
        | .returned none r1 t =>
          match addCmp a r1 NFT_REG_1 NFT_CMP_EQ proto 8 with
          | .fault t2 => .fault (tr3 ++ t ++ t2)
          | .returned err r2 t2 => .returned err r2 (tr3 ++ t ++ t2 ++ frees)

/-- The method `(r *Rule) Add()`. -/
def Add (familyMap protoMap : String → Option Int) (a : AllocWorld) (r : Rule) : Outcome :=
  addSetup familyMap protoMap a r "tcp" 22

/-! ## Vocabulary of the statements -/

/-- The status a receive or a callback run returned; `none` for every other
operation. -/
def opVal : Op → Option Int
  | .recvfrom v => some v
  | .cbRun v => some v
  | _ => none

/-- Whether the operation is a callback run. -/
def isCbRun : Op → Bool
  | .cbRun _ => true
  | _ => false

/-- Whether the operation is a send on the netlink endpoint. -/
def isSend : Op → Bool
  | .sendto _ => true
  | _ => false

/-- The number of callback runs in a trace. -/
def cbCount (tr : List Op) : Nat := tr.countP isCbRun

/-- The number of send operations in a trace. -/
def sendCount (tr : List Op) : Nat := tr.countP isSend

/-- The result of the callback run on the `i`-th received buffer. -/
def fragment (w : World) (i : Nat) : CbResult :=
  w.cbRun i (toU64 (w.recvfrom i (bufsize w)).1) (toU32 seq) w.portid

/-- The rules the callback emits for the `k` fragments from the `i`-th on, in
the order of the fragments. -/
def dumped (w : World) : Nat → Nat → List Rule
  | _, 0 => []
  | i, k + 1 => (fragment w i).emitted ++ dumped w (i + 1) k

/-- The value of a 32-bit attribute of a wire-form expression, if it was set. -/
def WireExpr.getU32 (e : WireExpr) (a : ExprAttr) : Option Nat := e.u32.lookup a

/-- The Go value and the byte length of a raw attribute of a wire-form
expression, if it was set. -/
def WireExpr.getRaw (e : WireExpr) (a : ExprAttr) : Option (Int × Nat) := e.raw.lookup a

/-- The names of the expressions appended to the rule during a trace, in order. -/
def appended (tr : List Op) : List String :=
  tr.filterMap (fun o => match o with
    | .addExpr name => some name
    | _ => none)

/-! ## Sample tables, rules and worlds -/

/-- Modelled from the spec: the family lookup table is not in `rule.go`; the
spec names the tags "ip" and "ip6" for IPv4 and IPv6, and the numbers are those
of `NFPROTO_IPV4` and `NFPROTO_IPV6`. The theorems hold for every table; this
one instantiates them. -/
def sampleFamilyMap : String → Option Int := fun s =>
  if s = "ip" then some 2 else if s = "ip6" then some 10 else none

/-- Modelled from the spec: the protocol lookup table is not in `rule.go`; the
spec names the entry "tcp", and the number is that of `IPPROTO_TCP`. The
theorems hold for every table; this one instantiates them. -/
def sampleProtoMap : String → Option Int := fun s =>
  if s = "tcp" then some 6 else none

/-- A rule of chain `output` of table `filter`. -/
def ruleOut : Rule := ⟨"ip", "filter", "output", 4, 0, 0, 0, [], none⟩

/-- A rule of chain `input` of table `filter`. -/
def ruleIn : Rule := ⟨"ip", "filter", "input", 2, 0, 0, 0, [], none⟩

/-- A second rule of chain `input` of table `filter`. -/
def ruleIn2 : Rule := ⟨"ip", "filter", "input", 3, 0, 0, 0, [], none⟩

/-- A kernel that answers the dump with two fragments, the first holding two
rules and the second one rule, and then a zero-length read. -/
def dumpWorld : World where
  pagesize := 4096
  pagesize_pos := by decide
  buildHdr := fun _ _ _ _ => some 20
  socketOpen := fun _ => true
  socketBind := fun _ _ => 0
  portid := 1234
  sendto := fun len => len
  recvfrom := fun i _ => if i = 0 then (120, none) else if i = 1 then (60, none) else (0, none)
  cbRun := fun i _ _ _ =>
    if i = 0 then ⟨1, none, [ruleIn, ruleOut]⟩
    else if i = 1 then ⟨1, none, [ruleIn2]⟩
    else ⟨0, none, []⟩

/-- A kernel that answers the dump with one fragment holding one rule, after
which the receive fails with -1. -/
def abortWorld : World where
  pagesize := 4096
  pagesize_pos := by decide
  buildHdr := fun _ _ _ _ => some 20
  socketOpen := fun _ => true
  socketBind := fun _ _ => 0
  portid := 1234
  sendto := fun len => len
  recvfrom := fun i _ => if i = 0 then (60, none) else (-1, some "input/output error")
  cbRun := fun _ _ _ _ => ⟨1, none, [ruleIn]⟩

/-- A kernel whose first fragment makes the callback run return -2. -/
def statusWorld : World where
  pagesize := 4096
  pagesize_pos := by decide
  buildHdr := fun _ _ _ _ => some 20
  socketOpen := fun _ => true
  socketBind := fun _ _ => 0
  portid := 1234
  sendto := fun len => len
  recvfrom := fun _ _ => (60, none)
  cbRun := fun _ _ _ _ => ⟨-2, some "invalid argument", []⟩

/-- A kernel whose first fragment decodes to one rule and whose second fragment
makes the callback run return -1. -/
def cbAbortWorld : World where
  pagesize := 4096
  pagesize_pos := by decide
  buildHdr := fun _ _ _ _ => some 20
  socketOpen := fun _ => true
  socketBind := fun _ _ => 0
  portid := 1234
  sendto := fun len => len
  recvfrom := fun _ _ => (60, none)
  cbRun := fun i _ _ _ =>
    if i = 0 then ⟨1, none, [ruleIn]⟩ else ⟨-1, some "invalid argument", []⟩

/-- Allocators that always succeed. -/
def okAlloc : AllocWorld := ⟨true, none, fun _ => true, fun _ => none⟩

/-- A rule of family `ip` as a caller hands it to `Add`. -/
def newRule : Rule := ⟨"ip", "filter", "input", 0, 0, 0, 0, [], none⟩

/-! ## The receive loop -/

/-- The callback runs of a concatenation are those of its parts. -/
theorem cbCount_append (l₁ l₂ : List Op) : cbCount (l₁ ++ l₂) = cbCount l₁ + cbCount l₂ := by
  simp [cbCount, List.countP_append]

/-- The loop appends to `rules` exactly the rules of the fragments it ran the
callback on, and adds one callback run to the trace per fragment. -/
theorem recvLoop_rules (w : World) :
    ∀ (fuel i : Nat) (cerr : Option String) (rules : List Rule) (tr : List Op)
      (st : LoopState),
      recvLoop w (bufsize w) fuel i (w.recvfrom i (bufsize w)).1 cerr rules tr = some st →
      ∃ k, st.rules = rules ++ dumped w i k ∧ cbCount st.trace = cbCount tr + k := by
  intro fuel
  induction fuel with
  | zero =>
    intro i cerr rules tr st h
    unfold recvLoop at h
    split at h
    · exact absurd h (by simp)
    · refine ⟨0, ?_, ?_⟩ <;> simp at h <;> subst h <;> simp [dumped]
  | succ fuel ih =>
    intro i cerr rules tr st h
    unfold recvLoop at h
    split at h
    · simp only at h
      split at h
      · refine ⟨1, ?_, ?_⟩ <;> simp at h <;> subst h <;>
          simp [dumped, fragment, cbCount_append, cbCount, isCbRun]
      · obtain ⟨k, hk1, hk2⟩ := ih _ _ _ _ _ h
        refine ⟨k + 1, ?_, ?_⟩
        · rw [hk1]; simp [dumped, fragment]
        · rw [hk2]; simp [cbCount_append, cbCount, isCbRun]; omega
    · refine ⟨0, ?_, ?_⟩ <;> simp at h <;> subst h <;> simp [dumped]

/-- With fuel for `k` iterations, `k` fragments on which the callback run returns a
positive value followed by a zero-length receive make the loop end with `sn = 0`
and the rules of those fragments appended. -/
theorem recvLoop_dump (w : World) :
    ∀ (k fuel i : Nat) (cerr : Option String) (rules : List Rule) (tr : List Op),
      k ≤ fuel →
      (∀ j, j < k → 0 < (w.recvfrom (i + j) (bufsize w)).1 ∧ 0 < (fragment w (i + j)).n) →
      (w.recvfrom (i + k) (bufsize w)).1 = 0 →
      ∃ st, recvLoop w (bufsize w) fuel i (w.recvfrom i (bufsize w)).1 cerr rules tr = some st
        ∧ st.sn = 0 ∧ st.rules = rules ++ dumped w i k := by
  intro k
  induction k with
  | zero =>
    intro fuel i cerr rules tr _ _ hz
    simp only [Nat.add_zero] at hz
    cases fuel <;> simp [recvLoop, hz, dumped]
  | succ k ih =>
    intro fuel i cerr rules tr hk hpos hz
    cases fuel with
    | zero => omega
    | succ fuel =>
      have h0 := hpos 0 (by omega)
      simp only [Nat.add_zero] at h0
      have hn : ¬ (w.cbRun i (toU64 (w.recvfrom i (bufsize w)).1) (toU32 seq) w.portid).n ≤ 0 := by
        have := h0.2
        simp only [fragment] at this
        omega
      have hrec := ih fuel (i + 1) (w.recvfrom (i + 1) (bufsize w)).2
        (rules ++ (fragment w i).emitted)
        (tr ++ [Op.cbRun (fragment w i).n] ++ [Op.recvfrom (w.recvfrom (i + 1) (bufsize w)).1])
        (by omega)
        (fun j hj => by
          have := hpos (j + 1) (by omega)
          rwa [show i + (j + 1) = i + 1 + j by omega] at this)
        (by rwa [show i + (k + 1) = i + 1 + k by omega] at hz)
      obtain ⟨st, hst, hsn, hrules⟩ := hrec
      refine ⟨st, ?_, hsn, ?_⟩
      · unfold recvLoop
        simp only [h0.1, if_true, hn, if_false]
        exact hst
      · rw [hrules]; simp [dumped]

/-- The loop ends with `sn ≤ 0`. Either it ran no iteration, or it extended the
trace by receives and callback runs that all returned a positive status but the
last one, which returned the final `sn`. -/
theorem recvLoop_trace (w : World) (bs : Nat) :
    ∀ (fuel i : Nat) (sn : Int) (cerr : Option String) (rules : List Rule) (tr : List Op)
      (st : LoopState),
      recvLoop w bs fuel i sn cerr rules tr = some st →
      st.sn ≤ 0 ∧
      ((st.trace = tr ∧ st.sn = sn) ∨
       (0 < sn ∧ ∃ mid o, st.trace = tr ++ mid ++ [o] ∧ opVal o = some st.sn ∧
          ∀ o1 ∈ mid, ∃ v, opVal o1 = some v ∧ 0 < v)) := by
  intro fuel
  induction fuel with
  | zero =>
    intro i sn cerr rules tr st h
    unfold recvLoop at h
    split at h
    · exact absurd h (by simp)
    · simp at h; subst h
      exact ⟨by simp; omega, Or.inl ⟨rfl, rfl⟩⟩
  | succ fuel ih =>
    intro i sn cerr rules tr st h
    unfold recvLoop at h
    split at h
    next hsn =>
      simp only at h
      split at h
      next hn =>
        simp at h; subst h
        exact ⟨hn, Or.inr ⟨hsn, [], Op.cbRun _, by simp, rfl, by simp⟩⟩
      next hn =>
        obtain ⟨hle, hcase⟩ := ih _ _ _ _ _ _ h
        refine ⟨hle, Or.inr ⟨hsn, ?_⟩⟩
        rcases hcase with ⟨htr, hval⟩ | ⟨hpos, mid, o, htr, hval, hmid⟩
        · refine ⟨[Op.cbRun (w.cbRun i (toU64 sn) (toU32 seq) w.portid).n],
            Op.recvfrom (w.recvfrom (i + 1) bs).1, ?_, ?_, ?_⟩
          · rw [htr]
          · simp [opVal, hval]
          · intro o1 ho1
            simp at ho1; subst ho1
            exact ⟨_, rfl, by omega⟩
        · refine ⟨Op.cbRun (w.cbRun i (toU64 sn) (toU32 seq) w.portid).n ::
            Op.recvfrom (w.recvfrom (i + 1) bs).1 :: mid, o, ?_, hval, ?_⟩
          · rw [htr]; simp
          · intro o1 ho1
            simp at ho1
            rcases ho1 with rfl | rfl | ho1
            · exact ⟨_, rfl, by omega⟩
            · exact ⟨_, rfl, hpos⟩
            · exact hmid o1 ho1
    next hsn =>
      simp at h; subst h
      exact ⟨by simp; omega, Or.inl ⟨rfl, rfl⟩⟩

/-- The trace the loop leaves when entered right after the first receive: its last
operation returned the final `sn ≤ 0`, and before it no receive or callback run
returned a non-positive status and nothing was closed. -/
theorem recvLoop_shape (w : World) (bs fuel : Nat) (sn0 : Int) (cerr0 : Option String)
    (rules : List Rule) (pfx : List Op) (st : LoopState)
    (hl : recvLoop w bs fuel 0 sn0 cerr0 rules (pfx ++ [Op.recvfrom sn0]) = some st)
    (hpfx : ∀ o ∈ pfx, opVal o = none ∧ o ≠ Op.socketClose ∧ o ≠ Op.chanClose ∧ o ≠ Op.wgWait) :
    ∃ pre o, st.trace = pre ++ [o] ∧ opVal o = some st.sn ∧ st.sn ≤ 0 ∧
      (∀ o1 ∈ pfx, o1 ∈ pre) ∧
      (∀ o1 ∈ pre, o1 ≠ Op.socketClose ∧ o1 ≠ Op.chanClose ∧ o1 ≠ Op.wgWait ∧
        ∀ v1, opVal o1 = some v1 → 0 < v1) := by
  obtain ⟨hle, hcase⟩ := recvLoop_trace w bs fuel 0 sn0 cerr0 rules _ st hl
  rcases hcase with ⟨htr, hval⟩ | ⟨hpos, mid, o, htr, hval, hmid⟩
  · refine ⟨pfx, Op.recvfrom sn0, htr, by simp [opVal, hval], hle, fun _ ho => ho, ?_⟩
    intro o1 ho1
    obtain ⟨h1, h2, h3, h4⟩ := hpfx o1 ho1
    exact ⟨h2, h3, h4, fun v1 hv => by rw [h1] at hv; cases hv⟩
  · refine ⟨pfx ++ [Op.recvfrom sn0] ++ mid, o, htr, hval, hle,
      fun _ ho => by simp [ho], ?_⟩
    intro o1 ho1
    simp only [List.mem_append, List.mem_singleton] at ho1
    rcases ho1 with (ho1 | rfl) | ho1
    · obtain ⟨h1, h2, h3, h4⟩ := hpfx o1 ho1
      exact ⟨h2, h3, h4, fun v1 hv => by rw [h1] at hv; cases hv⟩
    · refine ⟨by simp, by simp, by simp, fun v1 hv => ?_⟩
      simp [opVal] at hv; omega
    · obtain ⟨v, hv, hv0⟩ := hmid o1 ho1
      refine ⟨?_, ?_, ?_, fun v1 hv1 => ?_⟩
      · rintro rfl; simp [opVal] at hv
      · rintro rfl; simp [opVal] at hv
      · rintro rfl; simp [opVal] at hv
      · rw [hv] at hv1; cases hv1; exact hv0

/-- With fuel for `k + 1` iterations, `k` fragments on which the callback run
returns a positive value followed by a receive that returns `v ≤ 0`, or by a
positive receive on which the callback run returns `v ≤ 0`, make the loop end
with `sn = v`, the operation that returned `v` being the last of the trace. -/
theorem recvLoop_stop (w : World) (o : Op) (v : Int) (hv : v ≤ 0) :
    ∀ (k fuel i : Nat) (cerr : Option String) (rules : List Rule) (tr0 : List Op),
      k < fuel →
      (∀ j, j < k → 0 < (w.recvfrom (i + j) (bufsize w)).1 ∧ 0 < (fragment w (i + j)).n) →
      (((w.recvfrom (i + k) (bufsize w)).1 = v ∧ o = Op.recvfrom v) ∨
       (0 < (w.recvfrom (i + k) (bufsize w)).1 ∧ (fragment w (i + k)).n = v ∧
          o = Op.cbRun v)) →
      ∃ st pre, recvLoop w (bufsize w) fuel i (w.recvfrom i (bufsize w)).1 cerr rules
          (tr0 ++ [Op.recvfrom (w.recvfrom i (bufsize w)).1]) = some st ∧
        st.sn = v ∧ st.trace = pre ++ [o] := by
  intro k
  induction k with
  | zero =>
    intro fuel i cerr rules tr0 hk _ hlast
    simp only [Nat.add_zero] at hlast
    cases fuel with
    | zero => omega
    | succ fuel =>
      rcases hlast with ⟨hr, rfl⟩ | ⟨hr, hn, rfl⟩
      · refine ⟨⟨v, cerr, rules, tr0 ++ [Op.recvfrom v]⟩, tr0, ?_, rfl, rfl⟩
        unfold recvLoop
        rw [hr, if_neg (by omega)]
      · have hn2 : (w.cbRun i (toU64 (w.recvfrom i (bufsize w)).1) (toU32 seq) w.portid).n = v := hn
        refine ⟨⟨v, (fragment w i).cerr, rules ++ (fragment w i).emitted,
          tr0 ++ [Op.recvfrom (w.recvfrom i (bufsize w)).1] ++ [Op.cbRun v]⟩,
          tr0 ++ [Op.recvfrom (w.recvfrom i (bufsize w)).1], ?_, rfl, rfl⟩
        unfold recvLoop
        simp only [gt_iff_lt, hr, if_true, hn2, hv]
        rfl
  | succ k ih =>
    intro fuel i cerr rules tr0 hk hpos hlast
    cases fuel with
    | zero => omega
    | succ fuel =>
      have h0 := hpos 0 (by omega)
      simp only [Nat.add_zero] at h0
      have hn : ¬ (w.cbRun i (toU64 (w.recvfrom i (bufsize w)).1) (toU32 seq) w.portid).n ≤ 0 := by
        have := h0.2
        simp only [fragment] at this
        omega
      obtain ⟨st, pre, hst, hsn, htr⟩ := ih fuel (i + 1) (w.recvfrom (i + 1) (bufsize w)).2
        (rules ++ (fragment w i).emitted)
        (tr0 ++ [Op.recvfrom (w.recvfrom i (bufsize w)).1] ++ [Op.cbRun (fragment w i).n])
        (by omega)
        (fun j hj => by
          have := hpos (j + 1) (by omega)
          rwa [show i + (j + 1) = i + 1 + j by omega] at this)
        (by rwa [show i + (k + 1) = i + 1 + k by omega] at hlast)
      refine ⟨st, pre, ?_, hsn, htr⟩
      unfold recvLoop
      simp only [h0.1, if_true, hn, if_false]
      exact hst

/-! ## The shape of every run of `getRule` -/

/-- Either the call fails before the first receive, with no rule, no receive, no
callback run and no stream or close operation in its trace, or it reaches the
receive loop and its trace is: operations none of which is a close and whose
receives and callback runs all returned a positive status, then the one receive
or callback run that returned a status `v ≤ 0`, then the close of the rule
stream, the wait for the consumer and, unless `v = -1`, the close of the socket. -/
theorem getRule_shape (familyMap : String → Option Int) (w : World) (name family : String)
    (fuel : Nat) (r : Result) (h : getRule familyMap w name family fuel = some r) :
    (r.rules = [] ∧ (∃ e, r.err = some e ∧ ∀ c, e ≠ Err.cbRun c) ∧
      (∀ o ∈ r.trace, opVal o = none ∧ o ≠ Op.socketClose ∧ o ≠ Op.chanClose ∧ o ≠ Op.wgWait) ∧
      ((r.err = some Err.socketBind ∨ r.err = some Err.socketSend) →
        Op.socketOpen true ∈ r.trace)) ∨
    (∃ pre o v cerr, opVal o = some v ∧ v ≤ 0 ∧
      (∀ o1 ∈ pre, o1 ≠ Op.socketClose ∧ o1 ≠ Op.chanClose ∧ o1 ≠ Op.wgWait ∧
        ∀ v1, opVal o1 = some v1 → 0 < v1) ∧
      Op.socketOpen true ∈ pre ∧
      r.trace = pre ++ o :: Op.chanClose :: Op.wgWait ::
        (if v = -1 then [] else [Op.socketClose]) ∧
      r.err = (if v = -1 then some (Err.cbRun cerr) else none)) := by
  unfold getRule at h
  split at h
  · simp at h; subst h
    exact Or.inl ⟨rfl, ⟨_, rfl, by simp⟩, by simp, by simp⟩
  · split at h
    · simp at h; subst h
      exact Or.inl ⟨rfl, ⟨_, rfl, by simp⟩, by simp [opVal], by simp⟩
    · split at h
      · simp at h; subst h
        exact Or.inl ⟨rfl, ⟨_, rfl, by simp⟩, by simp [opVal], by simp⟩
      · split at h
        · simp at h; subst h
          exact Or.inl ⟨rfl, ⟨_, rfl, by simp⟩, by simp [opVal], by simp⟩
        · split at h
          · simp at h; subst h
            exact Or.inl ⟨rfl, ⟨_, rfl, by simp⟩, by simp [opVal], by simp⟩
          · right
            simp only at h
            split at h
            · exact absurd h (by simp)
            next st hl =>
              obtain ⟨pre, o, htr, hval, hle, hsub, hpre⟩ :=
                recvLoop_shape w _ _ _ _ _ [_, _, _, _, _] st hl (by simp [opVal])
              have hres : r.trace = st.trace ++ Op.chanClose :: Op.wgWait ::
                    (if st.sn = -1 then [] else [Op.socketClose]) ∧
                  r.err = (if st.sn = -1 then some (Err.cbRun st.cerr) else none) := by
                split at h <;> simp at h <;> subst h <;> simp [*]
              refine ⟨pre, o, st.sn, st.cerr, hval, hle, hpre, hsub _ (by simp), ?_, hres.2⟩
              rw [hres.1, htr]; simp

/-- The rules `getRule` returns are those of the fragments its callback runs
processed, in order, whatever the error it returns. -/
theorem getRule_rules (familyMap : String → Option Int) (w : World) (name family : String)
    (fuel : Nat) (r : Result) (h : getRule familyMap w name family fuel = some r) :
    r.rules = dumped w 0 (cbCount r.trace) := by
  unfold getRule at h
  split at h
  · simp at h; subst h; rfl
  · split at h
    · simp at h; subst h; rfl
    · split at h
      · simp at h; subst h; rfl
      · split at h
        · simp at h; subst h; rfl
        · split at h
          · simp at h; subst h; rfl
          · simp only at h
            split at h
            · exact absurd h (by simp)
            next st hl =>
              obtain ⟨k, hk1, hk2⟩ := recvLoop_rules w _ _ _ _ _ _ hl
              have hk : cbCount st.trace = k := by
                rw [hk2]; simp [cbCount, isCbRun]
              have hk3 : ∀ l : List Op, (∀ o ∈ l, isCbRun o = false) →
                  cbCount (st.trace ++ l) = k := by
                intro l hlf
                rw [cbCount_append, hk]
                have : cbCount l = 0 := by
                  simpa [cbCount, List.countP_eq_zero] using hlf
                omega
              split at h <;> simp only [Option.some.injEq] at h <;> subst h <;>
                simp only [hk1, List.nil_append] <;> rw [hk3 _ (by simp [isCbRun])]

/-! ## The claims about `getRule` -/

/-- C1 (counterexample): a dump whose first fragment decodes to one rule and
whose next receive returns -1 makes `getRule` return the dump error together
with that rule, not with an empty sequence. -/
theorem getRule_abort_keeps_rules :
    (getRule sampleFamilyMap abortWorld "input" "ip" 1).map (fun r => (r.err, r.rules))
      = some (some (Err.cbRun (some "input/output error")), [ruleIn]) := by
  decide

/-- C1 (amended): whenever `getRule` returns a non-nil error, the returned rule
sequence is the rules the callback runs of the call emitted, in order; it is
empty when the error is not the dump failure. -/
theorem getRule_error_rules (familyMap : String → Option Int) (w : World)
    (name family : String) (fuel : Nat) (r : Result)
    (h : getRule familyMap w name family fuel = some r) (herr : r.err ≠ none) :
    r.rules = dumped w 0 (cbCount r.trace) ∧
    ((∀ c, r.err ≠ some (Err.cbRun c)) → r.rules = []) := by
  refine ⟨getRule_rules familyMap w name family fuel r h, fun hc => ?_⟩
  rcases getRule_shape familyMap w name family fuel r h with
    ⟨hr, _⟩ | ⟨pre, o, v, cerr, _, _, _, _, _, he⟩
  · exact hr
  · by_cases hv : v = -1
    · rw [if_pos hv] at he
      exact absurd he (hc cerr)
    · rw [if_neg hv] at he
      exact absurd he herr

/-- C1 (amended), at the aborted dump. -/
theorem getRule_error_rules_witness :
    ∃ r, getRule sampleFamilyMap abortWorld "input" "ip" 1 = some r ∧ r.err ≠ none ∧
      r.rules = dumped abortWorld 0 (cbCount r.trace) ∧
      ((∀ c, r.err ≠ some (Err.cbRun c)) → r.rules = []) :=
  ⟨_, rfl, by decide,
    getRule_error_rules sampleFamilyMap abortWorld "input" "ip" 1 _ rfl (by decide)⟩

/-- C2: for a family that is not a key of the family table, `getRule` returns
the error "unrecognised family ..." and no rule, and its trace is empty: no
header build, socket open, bind, send or receive precedes the return. -/
theorem getRule_unknown_family (familyMap : String → Option Int) (w : World)
    (name family : String) (fuel : Nat) (h : familyMap family = none) :
    getRule familyMap w name family fuel
      = some ⟨[], some (Err.unrecognisedFamily family), []⟩ ∧
    (Err.unrecognisedFamily family).Error = "unrecognised family " ++ family := by
  constructor
  · unfold getRule; rw [h]
  · rfl

/-- C2, at the family tag `inet`. -/
theorem getRule_unknown_family_witness :
    sampleFamilyMap "inet" = none ∧
    getRule sampleFamilyMap dumpWorld "input" "inet" 0
      = some ⟨[], some (Err.unrecognisedFamily "inet"), []⟩ ∧
    (Err.unrecognisedFamily "inet").Error = "unrecognised family " ++ "inet" :=
  ⟨by decide, getRule_unknown_family sampleFamilyMap dumpWorld "input" "inet" 0 (by decide)⟩

/-- C3: for a family of the family table, when the request is sent and the
kernel answers with `k` fragments on each of which the callback run returns a
positive value, followed by a zero-length receive, `getRule` returns (with fuel
for `k` iterations) a nil error and exactly the rules of the fragments, in
order. -/
theorem getRule_dump_complete (familyMap : String → Option Int) (w : World)
    (name family : String) (f : Int) (len k fuel : Nat)
    (hf : familyMap family = some f)
    (hhdr : w.buildHdr NFT_MSG_GETRULE (toU16 f) NLM_F_DUMP (toU32 seq) = some len)
    (hopen : w.socketOpen NETLINK_NETFILTER = true)
    (hbind : 0 ≤ w.socketBind 0 MNL_SOCKET_AUTOPID)
    (hsend : 0 ≤ w.sendto len)
    (hfrag : ∀ j, j < k → 0 < (w.recvfrom j (bufsize w)).1 ∧ 0 < (fragment w j).n)
    (hend : (w.recvfrom k (bufsize w)).1 = 0)
    (hfuel : k ≤ fuel) :
    ∃ r, getRule familyMap w name family fuel = some r ∧ r.err = none ∧
      r.rules = dumped w 0 k := by
  obtain ⟨st, hst, hsn, hrules⟩ := recvLoop_dump w k fuel 0 none []
    [.buildHdr true, .socketOpen true, .socketBind (w.socketBind 0 MNL_SOCKET_AUTOPID),
     .getPortid, .sendto (w.sendto len), .recvfrom (w.recvfrom 0 (bufsize w)).1]
    hfuel (by simpa using hfrag) (by simpa using hend)
  refine ⟨⟨st.rules, none, st.trace ++ [.chanClose, .wgWait, .socketClose]⟩, ?_, rfl, ?_⟩
  · unfold getRule
    simp only [hf, hhdr, hopen]
    rw [if_neg (by simp), if_neg (by omega), if_neg (by omega)]
    simp only [hst, hsn]
    simp
  · simpa using hrules

/-- C3, at the dump of two fragments. -/
theorem getRule_dump_complete_witness :
    ∃ r, getRule sampleFamilyMap dumpWorld "input" "ip" 2 = some r ∧ r.err = none ∧
      r.rules = dumped dumpWorld 0 2 :=
  getRule_dump_complete sampleFamilyMap dumpWorld "input" "ip" 2 20 2 2
    (by decide) (by decide) (by decide) (by decide) (by decide) (by decide) (by decide)
    (by decide)

/-- The chain name handed to `getRule` reaches neither the request nor the
callback: the result is the same for every name. -/
theorem getRule_name_irrelevant (familyMap : String → Option Int) (w : World)
    (name name2 family : String) (fuel : Nat) :
    getRule familyMap w name family fuel = getRule familyMap w name2 family fuel := rfl

/-- C4 (the code at the failing input): asked for the rules of chain `input`,
`GetRules` returns without error every rule of the family the kernel dumps, the
rule of chain `output` among them. -/
theorem GetRules_returns_other_chain :
    (GetRules sampleFamilyMap dumpWorld "input" 2).map
        (fun r => (r.err, r.rules.map (fun x => x.Chain)))
      = some (none, ["input", "output", "input"]) := by
  decide

/-- C9 (counterexample): the callback run on the first fragment returns -2; the
loop stops, but `getRule` closes the socket and returns a nil error. -/
theorem getRule_minus_two_no_error :
    (getRule sampleFamilyMap statusWorld "input" "ip" 1).map (fun r => (r.err, r.trace))
      = some (none,
          [Op.buildHdr true, Op.socketOpen true, Op.socketBind 0, Op.getPortid, Op.sendto 20,
           Op.recvfrom 60, Op.cbRun (-2), Op.chanClose, Op.wgWait, Op.socketClose]) := by
  decide

/-- In every returned run of `getRule`, a receive or a callback run that returned
a negative status `v` is followed by no further receive or callback run, and if
`v = -1` the error returned is not nil. -/
theorem getRule_negative_last (familyMap : String → Option Int) (w : World)
    (name family : String) (fuel : Nat) (r : Result)
    (h : getRule familyMap w name family fuel = some r)
    (o : Op) (v : Int) (ho : o ∈ r.trace) (hv : opVal o = some v) (hneg : v < 0) :
    (∃ pre post, r.trace = pre ++ o :: Op.chanClose :: Op.wgWait :: post ∧
      ∀ o1 ∈ post, opVal o1 = none) ∧
    (v = -1 → r.err ≠ none) := by
  rcases getRule_shape familyMap w name family fuel r h with
    ⟨_, _, htr, _⟩ | ⟨pre, o2, v2, cerr, hv2, _, hpre, _, htr, he⟩
  · have := (htr o ho).1
    rw [hv] at this; cases this
  · have hoo : o = o2 ∧ v = v2 := by
      rw [htr] at ho
      simp only [List.mem_append, List.mem_cons] at ho
      rcases ho with ho | rfl | rfl | rfl | ho
      · have := (hpre o ho).2.2.2 v hv
        omega
      · rw [hv] at hv2; cases hv2; exact ⟨rfl, rfl⟩
      · simp [opVal] at hv
      · simp [opVal] at hv
      · split at ho
        · cases ho
        · simp only [List.mem_singleton] at ho
          subst ho; simp [opVal] at hv
    obtain ⟨rfl, rfl⟩ := hoo
    refine ⟨⟨pre, _, htr, ?_⟩, fun h1 => ?_⟩
    · intro o1 ho1
      split at ho1
      · cases ho1
      · simp only [List.mem_singleton] at ho1
        subst ho1; rfl
    · rw [he, if_pos h1]; simp

/-- C9 (amended): when the request of `getRule` is sent and, after `k` fragments
on which the callback run returns a positive value, the next receive returns a
negative status `v`, or the callback run on the next received fragment does,
`getRule` returns (with fuel for `k + 1` iterations); no further receive or
callback run follows that operation in its trace (the rule stream is closed and
the consumer awaited next), and if `v = -1` the error returned is not nil. -/
theorem getRule_negative_status (familyMap : String → Option Int) (w : World)
    (name family : String) (f : Int) (len k fuel : Nat) (o : Op) (v : Int)
    (hf : familyMap family = some f)
    (hhdr : w.buildHdr NFT_MSG_GETRULE (toU16 f) NLM_F_DUMP (toU32 seq) = some len)
    (hopen : w.socketOpen NETLINK_NETFILTER = true)
    (hbind : 0 ≤ w.socketBind 0 MNL_SOCKET_AUTOPID)
    (hsend : 0 ≤ w.sendto len)
    (hfrag : ∀ j, j < k → 0 < (w.recvfrom j (bufsize w)).1 ∧ 0 < (fragment w j).n)
    (hlast : ((w.recvfrom k (bufsize w)).1 = v ∧ o = Op.recvfrom v) ∨
      (0 < (w.recvfrom k (bufsize w)).1 ∧ (fragment w k).n = v ∧ o = Op.cbRun v))
    (hneg : v < 0) (hfuel : k < fuel) :
    ∃ r, getRule familyMap w name family fuel = some r ∧
      (∃ pre post, r.trace = pre ++ o :: Op.chanClose :: Op.wgWait :: post ∧
        ∀ o1 ∈ post, opVal o1 = none) ∧
      (v = -1 → r.err ≠ none) := by
  obtain ⟨st, pre, hst, hsn, htr⟩ := recvLoop_stop w o v (by omega) k fuel 0 none []
    [.buildHdr true, .socketOpen true, .socketBind (w.socketBind 0 MNL_SOCKET_AUTOPID),
     .getPortid, .sendto (w.sendto len)]
    hfuel (by simpa using hfrag) (by simpa using hlast)
  have hst2 : recvLoop w (bufsize w) fuel 0 (w.recvfrom 0 (bufsize w)).1 none []
      [.buildHdr true, .socketOpen true, .socketBind (w.socketBind 0 MNL_SOCKET_AUTOPID),
       .getPortid, .sendto (w.sendto len), .recvfrom (w.recvfrom 0 (bufsize w)).1]
      = some st := hst
  by_cases h1 : v = -1
  · refine ⟨⟨st.rules, some (.cbRun st.cerr), st.trace ++ [.chanClose, .wgWait]⟩, ?_,
      ⟨pre, [], ?_, by simp⟩, fun _ => by simp⟩
    · unfold getRule
      simp only [hf, hhdr, hopen]
      rw [if_neg (by simp), if_neg (by omega), if_neg (by omega)]
      simp only [hst2]
      rw [if_pos (by rw [hsn]; exact h1)]
    · simp [htr]
  · refine ⟨⟨st.rules, none, st.trace ++ [.chanClose, .wgWait, .socketClose]⟩, ?_,
      ⟨pre, [.socketClose], ?_, by simp [opVal]⟩, fun h2 => absurd h2 h1⟩
    · unfold getRule
      simp only [hf, hhdr, hopen]
      rw [if_neg (by simp), if_neg (by omega), if_neg (by omega)]
      simp only [hst2]
      rw [if_neg (by rw [hsn]; exact h1)]
    · simp [htr]

/-- C9 (amended), at a dump whose second receive returns -1 and at a dump whose
second callback run returns -1. -/
theorem getRule_negative_status_witness :
    (∃ r, getRule sampleFamilyMap abortWorld "input" "ip" 2 = some r ∧
      (∃ pre post, r.trace = pre ++ Op.recvfrom (-1) :: Op.chanClose :: Op.wgWait :: post ∧
        ∀ o1 ∈ post, opVal o1 = none) ∧
      ((-1 : Int) = -1 → r.err ≠ none)) ∧
    (∃ r, getRule sampleFamilyMap cbAbortWorld "input" "ip" 2 = some r ∧
      (∃ pre post, r.trace = pre ++ Op.cbRun (-1) :: Op.chanClose :: Op.wgWait :: post ∧
        ∀ o1 ∈ post, opVal o1 = none) ∧
      ((-1 : Int) = -1 → r.err ≠ none)) :=
  ⟨getRule_negative_status sampleFamilyMap abortWorld "input" "ip" 2 20 1 2
      (Op.recvfrom (-1)) (-1) (by decide) (by decide) (by decide) (by decide) (by decide)
      (by decide) (by decide) (by decide) (by decide),
   getRule_negative_status sampleFamilyMap cbAbortWorld "input" "ip" 2 20 1 2
      (Op.cbRun (-1)) (-1) (by decide) (by decide) (by decide) (by decide) (by decide)
      (by decide) (by decide) (by decide) (by decide)⟩

/-- C10: a call of `getRule` closes the socket if and only if it returns a nil
error. On success the close occurs exactly once and is the last operation,
right after the close of the rule stream and the wait for the consumer. On an
error return the trace has no close, so after a bind, send or dump failure the
socket that was opened stays open. -/
theorem getRule_close_iff (familyMap : String → Option Int) (w : World)
    (name family : String) (fuel : Nat) (r : Result)
    (h : getRule familyMap w name family fuel = some r) :
    (r.err = none ↔ Op.socketClose ∈ r.trace) ∧
    (r.err = none → r.trace.count Op.socketClose = 1 ∧
      ∃ pre, r.trace = pre ++ [Op.chanClose, Op.wgWait, Op.socketClose]) ∧
    (r.err ≠ none → Op.socketClose ∉ r.trace) ∧
    ((r.err = some Err.socketBind ∨ r.err = some Err.socketSend ∨
        ∃ c, r.err = some (Err.cbRun c)) →
      Op.socketOpen true ∈ r.trace ∧ Op.socketClose ∉ r.trace) := by
  rcases getRule_shape familyMap w name family fuel r h with
    ⟨_, ⟨e, he, hne⟩, htr, hopen⟩ | ⟨pre, o, v, cerr, hv, _, hpre, hopen, htr, he⟩
  · have hnc : Op.socketClose ∉ r.trace := fun hc => (htr _ hc).2.1 rfl
    refine ⟨⟨fun h0 => ?_, fun hc => absurd hc hnc⟩, fun h0 => ?_, fun _ => hnc, ?_⟩
    · rw [he] at h0; cases h0
    · rw [he] at h0; cases h0
    · rintro (hb | hs | ⟨c, hc⟩)
      · exact ⟨hopen (Or.inl hb), hnc⟩
      · exact ⟨hopen (Or.inr hs), hnc⟩
      · rw [he] at hc; cases hc; exact absurd rfl (hne c)
  · have hpc : Op.socketClose ∉ pre := fun hc => (hpre _ hc).1 rfl
    have hoc : o ≠ Op.socketClose := by
      rintro rfl; simp [opVal] at hv
    by_cases h1 : v = -1
    · rw [if_pos h1] at htr he
      have hnc : Op.socketClose ∉ r.trace := by
        rw [htr]; simp [hpc, hoc.symm]
      refine ⟨⟨fun h0 => ?_, fun hc => absurd hc hnc⟩, fun h0 => ?_, fun _ => hnc, fun _ => ?_⟩
      · rw [he] at h0; cases h0
      · rw [he] at h0; cases h0
      · exact ⟨by rw [htr]; simp [hopen], hnc⟩
    · rw [if_neg h1] at htr he
      have hc : Op.socketClose ∈ r.trace := by rw [htr]; simp
      refine ⟨⟨fun _ => hc, fun _ => he⟩, fun _ => ⟨?_, pre ++ [o], by rw [htr]; simp⟩,
        fun hn => absurd he hn, ?_⟩
      · rw [htr, List.count_append, List.count_eq_zero_of_not_mem hpc]
        simp [List.count_cons, hoc]
      · rintro (hb | hs | ⟨c, hc2⟩)
        · rw [he] at hb; cases hb
        · rw [he] at hs; cases hs
        · rw [he] at hc2; cases hc2

/-- C10, at the dump of two fragments. -/
theorem getRule_close_iff_witness :
    ∃ r, getRule sampleFamilyMap dumpWorld "input" "ip" 2 = some r ∧
      (r.err = none ↔ Op.socketClose ∈ r.trace) ∧
      (r.err = none → r.trace.count Op.socketClose = 1 ∧
        ∃ pre, r.trace = pre ++ [Op.chanClose, Op.wgWait, Op.socketClose]) ∧
      (r.err ≠ none → Op.socketClose ∉ r.trace) ∧
      ((r.err = some Err.socketBind ∨ r.err = some Err.socketSend ∨
          ∃ c, r.err = some (Err.cbRun c)) →
        Op.socketOpen true ∈ r.trace ∧ Op.socketClose ∉ r.trace) :=
  ⟨_, rfl, getRule_close_iff sampleFamilyMap dumpWorld "input" "ip" 2 _ rfl⟩

/-! ## The claims about `Add` and `addSetup` -/

/-- No call of `addSetup` performs a send on a netlink endpoint. -/
theorem addSetup_no_send (familyMap protoMap : String → Option Int) (a : AllocWorld)
    (r : Rule) (protoStr : String) (port : Int) :
    sendCount (addSetup familyMap protoMap a r protoStr port).trace = 0 := by
  cases hp : protoMap protoStr <;> cases hr : a.ruleAlloc <;>
    cases hf : familyMap r.Family <;> cases h1 : a.exprAlloc "payload" <;>
    cases h2 : a.exprAlloc "cmp" <;> by_cases hH : r.Handle > 0 <;>
    simp [addSetup, addPayload, addCmp, hp, hr, hf, hH, h1, h2, Outcome.trace, sendCount,
      isSend, List.countP_cons]

/-- C5 (counterexample): `Add` on a rule of family `ip`, with every allocation
succeeding, returns no error and its trace holds no send operation. -/
theorem Add_ok_without_send :
    (Add sampleFamilyMap sampleProtoMap okAlloc newRule).err = some none ∧
    sendCount (Add sampleFamilyMap sampleProtoMap okAlloc newRule).trace = 0 := by
  decide

/-- C5 (amended): for every rule whose family is in the family table, a call of
`Add` that returns no error has appended the payload and the cmp expression to
the wire-form rule and released that rule without sending it: no send operation
occurs during the call. -/
theorem Add_builds_and_releases (familyMap protoMap : String → Option Int) (a : AllocWorld)
    (r : Rule) (f : Int) (hf : familyMap r.Family = some f)
    (herr : (Add familyMap protoMap a r).err = some none) :
    sendCount (Add familyMap protoMap a r).trace = 0 ∧
    appended (Add familyMap protoMap a r).trace = ["payload", "cmp"] ∧
    (Add familyMap protoMap a r).trace.getLast? = some (Op.free Mem.rule) := by
  refine ⟨addSetup_no_send familyMap protoMap a r "tcp" 22, ?_⟩
  revert herr
  unfold Add
  cases hp : protoMap "tcp" <;> cases hr : a.ruleAlloc <;>
    cases h1 : a.exprAlloc "payload" <;>
    cases h2 : a.exprAlloc "cmp" <;> by_cases hH : r.Handle > 0 <;>
    simp [addSetup, addPayload, addCmp, hp, hr, hf, hH, h1, h2, Outcome.trace, Outcome.err,
      appended, List.getLast?_append, List.filterMap_append]

/-- C5 (amended), at a rule of family `ip`. -/
theorem Add_builds_and_releases_witness :
    sampleFamilyMap newRule.Family = some 2 ∧
    (Add sampleFamilyMap sampleProtoMap okAlloc newRule).err = some none ∧
    sendCount (Add sampleFamilyMap sampleProtoMap okAlloc newRule).trace = 0 ∧
    appended (Add sampleFamilyMap sampleProtoMap okAlloc newRule).trace = ["payload", "cmp"] ∧
    (Add sampleFamilyMap sampleProtoMap okAlloc newRule).trace.getLast?
      = some (Op.free Mem.rule) :=
  ⟨by decide, by decide,
    Add_builds_and_releases sampleFamilyMap sampleProtoMap okAlloc newRule 2
      (by decide) (by decide)⟩

/-- C6: for a protocol name that is not a key of the protocol table, `addSetup`
returns the error "unrecognised protocol ..." with an empty trace and the
receiver untouched: no rule is allocated, no attribute set, no expression
allocated or appended. -/
theorem addSetup_unknown_protocol (familyMap protoMap : String → Option Int)
    (a : AllocWorld) (r : Rule) (protoStr : String) (port : Int)
    (h : protoMap protoStr = none) :
    addSetup familyMap protoMap a r protoStr port
      = Outcome.returned (some (Err.unrecognisedProtocol protoStr)) r [] ∧
    (Err.unrecognisedProtocol protoStr).Error = "unrecognised protocol " ++ protoStr := by
  constructor
  · unfold addSetup; rw [h]
  · rfl

/-- C6, at the protocol name `sctp`. -/
theorem addSetup_unknown_protocol_witness :
    sampleProtoMap "sctp" = none ∧
    addSetup sampleFamilyMap sampleProtoMap okAlloc newRule "sctp" 22
      = Outcome.returned (some (Err.unrecognisedProtocol "sctp")) newRule [] ∧
    (Err.unrecognisedProtocol "sctp").Error = "unrecognised protocol " ++ "sctp" :=
  ⟨by decide,
    addSetup_unknown_protocol sampleFamilyMap sampleProtoMap okAlloc newRule "sctp" 22
      (by decide)⟩

/-- C7 (the code at the failing input): in the rule `addSetup` builds for
protocol `tcp` and family `ip`, the payload expression is given length 8 and
the cmp expression data length 8, not 1. -/
theorem addSetup_lengths_are_eight :
    (addSetup sampleFamilyMap sampleProtoMap okAlloc newRule "tcp" 22).exprs.map
        (fun e => (e.name, e.getU32 ExprAttr.NFT_EXPR_PAYLOAD_LEN,
          (e.getRaw ExprAttr.NFT_EXPR_CMP_DATA).map Prod.snd))
      = [("payload", some 8, none), ("cmp", none, some 8)] := by
  decide

/-- C8: for a protocol name of the protocol table and a rule whose family is in
the family table, when the rule and both expressions are allocated, `addSetup`
returns no error and appends exactly two expressions, in this order: a
"payload" expression with base network header, destination register
`NFT_REG_1` and offset that of the protocol field of the IP header, then a
"cmp" expression whose source register is the destination register of the payload,
whose operator is equality and whose literal is the protocol number. -/
theorem addSetup_payload_then_cmp (familyMap protoMap : String → Option Int)
    (a : AllocWorld) (r : Rule) (protoStr : String) (port : Int) (proto f : Int)
    (hp : protoMap protoStr = some proto) (hf : familyMap r.Family = some f)
    (hr : a.ruleAlloc = true) (h1 : a.exprAlloc "payload" = true)
    (h2 : a.exprAlloc "cmp" = true) :
    (addSetup familyMap protoMap a r protoStr port).err = some none ∧
    appended (addSetup familyMap protoMap a r protoStr port).trace = ["payload", "cmp"] ∧
    ∃ e1 e2, (addSetup familyMap protoMap a r protoStr port).exprs = [e1, e2] ∧
      e1.name = "payload" ∧
      e1.getU32 ExprAttr.NFT_EXPR_PAYLOAD_BASE = some (toU32 NFT_PAYLOAD_NETWORK_HEADER) ∧
      e1.getU32 ExprAttr.NFT_EXPR_PAYLOAD_DREG = some (toU32 NFT_REG_1) ∧
      e1.getU32 ExprAttr.NFT_EXPR_PAYLOAD_OFFSET = some iphdr_protocol_offset ∧
      e2.name = "cmp" ∧
      e2.getU32 ExprAttr.NFT_EXPR_CMP_SREG = e1.getU32 ExprAttr.NFT_EXPR_PAYLOAD_DREG ∧
      e2.getU32 ExprAttr.NFT_EXPR_CMP_OP = some (toU32 NFT_CMP_EQ) ∧
      (e2.getRaw ExprAttr.NFT_EXPR_CMP_DATA).map Prod.fst = some proto := by
  have hres : (addSetup familyMap protoMap a r protoStr port).err = some none ∧
      appended (addSetup familyMap protoMap a r protoStr port).trace = ["payload", "cmp"] ∧
      (addSetup familyMap protoMap a r protoStr port).exprs =
        [⟨"payload",
          [(.NFT_EXPR_PAYLOAD_BASE, toU32 NFT_PAYLOAD_NETWORK_HEADER),
           (.NFT_EXPR_PAYLOAD_DREG, toU32 NFT_REG_1),
           (.NFT_EXPR_PAYLOAD_OFFSET, toU32 iphdr_protocol_offset),
           (.NFT_EXPR_PAYLOAD_LEN, toU32 8)], []⟩,
         ⟨"cmp",
          [(.NFT_EXPR_CMP_SREG, toU32 NFT_REG_1), (.NFT_EXPR_CMP_OP, toU32 NFT_CMP_EQ)],
          [(.NFT_EXPR_CMP_DATA, proto, toU32 8)]⟩] := by
    by_cases hH : r.Handle > 0 <;>
      simp [addSetup, addPayload, addCmp, hp, hr, hf, hH, h1, h2, Outcome.trace, Outcome.err,
        Outcome.exprs, appended, List.filterMap_append]
  exact ⟨hres.1, hres.2.1, _, _, hres.2.2, rfl, rfl, rfl, rfl, rfl, rfl, rfl, rfl⟩

/-- C8, at protocol `tcp` and a rule of family `ip`. -/
theorem addSetup_payload_then_cmp_witness :
    (addSetup sampleFamilyMap sampleProtoMap okAlloc newRule "tcp" 22).err = some none ∧
    appended (addSetup sampleFamilyMap sampleProtoMap okAlloc newRule "tcp" 22).trace
      = ["payload", "cmp"] ∧
    ∃ e1 e2, (addSetup sampleFamilyMap sampleProtoMap okAlloc newRule "tcp" 22).exprs
        = [e1, e2] ∧
      e1.name = "payload" ∧
      e1.getU32 ExprAttr.NFT_EXPR_PAYLOAD_BASE = some (toU32 NFT_PAYLOAD_NETWORK_HEADER) ∧
      e1.getU32 ExprAttr.NFT_EXPR_PAYLOAD_DREG = some (toU32 NFT_REG_1) ∧
      e1.getU32 ExprAttr.NFT_EXPR_PAYLOAD_OFFSET = some iphdr_protocol_offset ∧
      e2.name = "cmp" ∧
      e2.getU32 ExprAttr.NFT_EXPR_CMP_SREG = e1.getU32 ExprAttr.NFT_EXPR_PAYLOAD_DREG ∧
      e2.getU32 ExprAttr.NFT_EXPR_CMP_OP = some (toU32 NFT_CMP_EQ) ∧
      (e2.getRaw ExprAttr.NFT_EXPR_CMP_DATA).map Prod.fst = some 6 :=
  addSetup_payload_then_cmp sampleFamilyMap sampleProtoMap okAlloc newRule "tcp" 22 6 2
    (by decide) (by decide) (by decide) (by decide) (by decide)

end Gonft
